import Mathlib

/-!
Verification of the FinRecon CSV reconciliation core (src/app.py) against its
specification.  The pandas data frames are shallowly embedded as lists of
optional strings: `none` models a missing value (NaN), `some s` a value whose
text form (`str(value)`) is `s`.  All comparisons the code performs go through
text conversion, so this captures the observable behaviour of the pipeline.
-/

namespace FinRecon

/-- A cell of a table: `none` models a missing value (pandas `NaN`),
`some s` a value whose text form (`str(value)`) is `s`. -/
abbrev Cell := Option String

/-- A pandas `DataFrame`: named columns and positional rows (row `i`,
column `j` is `rows[i][j]`, labelled `cols[j]`). -/
structure Frame where
  cols : List String
  rows : List (List Cell)
deriving DecidableEq

/-- Python `str.strip()`: surrounding whitespace removed. -/
def pyStrip (s : String) : String :=
  ⟨((s.data.dropWhile Char.isWhitespace).reverse.dropWhile Char.isWhitespace).reverse⟩

/-- Python `str.lower()` (ASCII). -/
def pyLower (s : String) : String := ⟨s.data.map Char.toLower⟩

/-- `p` occurs as a contiguous block at the head of `l`. -/
def leadEq : List Char → List Char → Bool
  | [], _ => true
  | _ :: _, [] => false
  | a :: p, b :: l => a == b && leadEq p l

/-- Python's substring test `p in s`, on character lists: `p` occurs
contiguously somewhere in the second list. -/
def containsSeq (p : List Char) : List Char → Bool
  | [] => leadEq p []
  | b :: l => leadEq p (b :: l) || containsSeq p l

/-- The domain keyword list of `detect_header_row` (src/app.py:112-117). -/
def headerKeywords : List String :=
  ["date", "invoice", "bill", "particulars", "amount", "gst", "tax",
   "number", "no", "description", "quantity", "rate", "total", "gstin",
   "voucher", "ledger", "account", "debit", "credit", "balance", "name",
   "party", "customer", "vendor", "supplier", "document", "reference"]

/-- A cell that is present and not whitespace-only: the
`pd.notna(cell) and str(cell).strip() != ''` filter of src/app.py:129,135. -/
def cellKeep : Cell → Bool
  | some s => pyStrip s != ""
  | none => false

/-- `row_text` (src/app.py:129): the lowercased kept cells joined by spaces. -/
def rowText (r : List Cell) : String :=
  " ".intercalate ((r.filter cellKeep).map (fun c => pyLower (c.getD "")))

/-- `keyword_matches` (src/app.py:132): how many keywords occur in `row_text`. -/
def kwCount (r : List Cell) : Nat :=
  (headerKeywords.filter (fun kw => containsSeq kw.data (rowText r).data)).length

/-- `non_empty_count` (src/app.py:135). -/
def nonEmptyCount (r : List Cell) : Nat := (r.filter cellKeep).length

/-- The row score of src/app.py:138, scaled by 10 so that the floating-point
expression `keyword_matches * 2 + non_empty_count * 0.1` becomes the exact
natural number `20 * keyword_matches + non_empty_count`. -/
def rowScore (r : List Cell) : Nat := 20 * kwCount r + nonEmptyCount r

/-- `df.iloc[i]`. -/
def rowAt (f : Frame) (i : Nat) : List Cell := f.rows.getD i []

/-- Row `i` has at least one keyword match (the `keyword_matches >= 1` guard
of src/app.py:140). -/
def rowHasKw (f : Frame) (i : Nat) : Bool := decide (1 ≤ kwCount (rowAt f i))

/-- One step of a strict-improvement scan with score `S` and guard `K`; the
accumulator holds `(best score, best index)`. -/
def stepFn (S : Nat → Nat) (K : Nat → Bool) (acc : Nat × Nat) (i : Nat) : Nat × Nat :=
  if acc.1 < S i ∧ K i = true then (S i, i) else acc

/-- One iteration of the loop of src/app.py:125-145; the accumulator holds
`(max_keyword_matches, header_row_idx)`, updated when
`score > max_keyword_matches and keyword_matches >= 1`. -/
def scanStep (f : Frame) : Nat × Nat → Nat → Nat × Nat :=
  stepFn (fun i => rowScore (rowAt f i)) (rowHasKw f)

/-- `detect_header_row` (src/app.py:110-147): scan the first
`min(15, len(df))` rows, keeping the first row that strictly improves the
score among rows with a keyword match; `0` when no row matches. -/
def detect_header_row (f : Frame) : Nat :=
  ((List.range (min 15 f.rows.length)).foldl (scanStep f) (0, 0)).2

/-- The running maximum of `S` over a list of indices, seeded with `a`. -/
def maxFrom (S : Nat → Nat) (a : Nat) (l : List Nat) : Nat :=
  l.foldl (fun b i => max b (S i)) a

/-- The first index in `l` whose score equals `m` and strictly exceeds the
seed `a`. -/
def firstHit (S : Nat → Nat) (m a : Nat) (l : List Nat) : Option Nat :=
  l.find? (fun i => S i == m && decide (a < S i))

/-- The claim's description of header detection, written from its words: among
the scanned rows (the first `min(15, rowCount)`) with at least one keyword
match, the first row attaining the maximum score is the header row; if no
scanned row has a keyword match the result is row 0. -/
def detect_header_row_spec (f : Frame) : Nat :=
  match ((List.range (min 15 f.rows.length)).filter (rowHasKw f)).find?
      (fun i => rowScore (rowAt f i) ==
        maxFrom (fun i => rowScore (rowAt f i)) 0
          ((List.range (min 15 f.rows.length)).filter (rowHasKw f))) with
  | some i => i
  | none => 0

/-- `df.dropna(how='all')`: remove rows whose cells are all missing. -/
def dropEmptyRows (f : Frame) : Frame :=
  ⟨f.cols, f.rows.filter (fun r => r.any (fun c => c.isSome))⟩

/-- The column positions at which some row has a present value. -/
def keptCols (f : Frame) : List Nat :=
  (List.range f.cols.length).filter
    (fun j => f.rows.any (fun r => (r.getD j none).isSome))

/-- `df.dropna(axis=1, how='all')`: remove columns whose cells are all
missing. -/
def dropEmptyCols (f : Frame) : Frame :=
  ⟨(keptCols f).map (fun j => f.cols.getD j ""),
   f.rows.map (fun r => (keptCols f).map (fun j => r.getD j none))⟩

/-- Column-name sanitization of src/app.py:174-179: `str(col).strip()`, with
empty, `nan` and `None` replaced by the placeholder. -/
def sanitizeName (s : String) : String :=
  let c := pyStrip s
  if c = "" ∨ c = "nan" ∨ c = "None" then "Unnamed_Column" else c

/-- `column_counts[clean_col] += 1` on the association list that models the
Python dict `column_counts`. -/
def bumpCount : List (String × Nat) → String → List (String × Nat)
  | [], _ => []
  | p :: rest, c => if p.1 = c then (p.1, p.2 + 1) :: rest else p :: bumpCount rest c

/-- The duplicate-name handling of src/app.py:181-188: a first occurrence
keeps its name and registers counter 0; a repeat bumps the counter and gets
the suffix `_count`.  The suffixed name is not itself registered. -/
def dedupNames : List String → List (String × Nat) → List String
  | [], _ => []
  | c :: rest, seen =>
    match List.lookup c seen with
    | some n => (c ++ "_" ++ toString (n + 1)) :: dedupNames rest (bumpCount seen c)
    | none => c :: dedupNames rest ((c, 0) :: seen)

/-- `preprocess_csv` (src/app.py:149-199): drop blank rows and columns, detect
the header row, promote it to column names when its index is positive
(`str` of a missing cell is the text `nan`), drop blank rows again, sanitize
and deduplicate the column names, and drop blank columns again. -/
def preprocess_csv (f : Frame) : Frame :=
  let f1 := dropEmptyCols (dropEmptyRows f)
  let hidx := detect_header_row f1
  let f2 :=
    if 0 < hidx then
      Frame.mk ((f1.rows.getD hidx []).map (fun c => c.getD "nan")) (f1.rows.drop (hidx + 1))
    else f1
  let f3 := dropEmptyRows f2
  let f4 := Frame.mk (dedupNames (f3.cols.map sanitizeName) []) f3.rows
  dropEmptyCols f4

/-- First position of the label `c` in `cols` (pandas label lookup). -/
def colIdx : List String → String → Option Nat
  | [], _ => none
  | d :: rest, c => if d = c then some 0 else (colIdx rest c).map (fun j => j + 1)

/-- The cell of row `r` under the label `c`.  A missing label yields
`some ""`, matching the `row.get(col, '')` default of src/app.py:268-269
(label existence is checked before every other use). -/
def rowCell (cols : List String) (r : List Cell) (c : String) : Cell :=
  match colIdx cols c with
  | some j => r.getD j none
  | none => some ""

/-- Replace the cell under the label `c` (pandas column assignment). -/
def setCol (cols : List String) (c : String) (g : Cell → Cell) (r : List Cell) :
    List Cell :=
  match colIdx cols c with
  | some j => r.set j (g (r.getD j none))
  | none => r

/-- `df[[key] + cols]` (src/app.py:224-225). -/
def projectFrame (f : Frame) (sel : List String) : Frame :=
  ⟨sel, f.rows.map (fun r => sel.map (rowCell f.cols r))⟩

/-- Lines 224-240 of src/app.py for one side: project to the key and the
comparison columns, drop rows whose key is missing, convert the key to
trimmed text (`astype(str).str.strip()`, where `str` of a missing value is
`nan`), rename the key column to the internal name `key`, and drop rows whose
key text is empty. -/
def cleanSide (f : Frame) (key : String) (cols : List String) : Frame :=
  let p := projectFrame f (key :: cols)
  let rows1 := p.rows.filter (fun r => (rowCell p.cols r key).isSome)
  let rows2 := rows1.map (setCol p.cols key (fun c => some (pyStrip (c.getD "nan"))))
  let rcols := p.cols.map (fun c => if c = key then "key" else c)
  ⟨rcols, rows2.filter (fun r => pyStrip ((rowCell rcols r "key").getD "") != "")⟩

/-- The key text of a row of a cleaned side. -/
def keyText (f : Frame) (r : List Cell) : String := (rowCell f.cols r "key").getD ""

/-- The values of the `key` column of a cleaned side. -/
def frameKeys (f : Frame) : List String := f.rows.map (keyText f)

/-- Rows of `x` whose key does not occur among the keys of `y`
(src/app.py:243,246, the `~isin` filters). -/
def onlyRows (x y : Frame) : List (List Cell) :=
  x.rows.filter (fun r => !((frameKeys y).contains (keyText x r)))

/-- Rows of `x` whose key occurs among the keys of `y`: the matched-key rows. -/
def matchedRows (x y : Frame) : List (List Cell) :=
  x.rows.filter (fun r => (frameKeys y).contains (keyText x r))

/-- `set(df_a_compare['key']) & set(df_b_compare['key'])` (src/app.py:249) as a
canonical duplicate-free list; the iteration order of the Python set in a
given run is an arbitrary rearrangement of it, passed to `compare_dataframes`
as the `setOrder` parameter. -/
def commonKeys (x y : Frame) : List String :=
  (frameKeys x).dedup.filter (fun k => (frameKeys y).contains k)

/-- `str(val).strip() if pd.notna(val) else ""` (src/app.py:272-273): the
trimmed-text comparison form of a raw cell. -/
def cmpForm (c : Cell) : String :=
  match c with
  | some s => pyStrip s
  | none => ""

/-- The first row of `f` whose key equals `k` (src/app.py:255-261: duplicate
keys use the first occurrence). -/
def firstKeyRow (f : Frame) (k : String) : Option (List Cell) :=
  (f.rows.filter (fun r => rowCell f.cols r "key" == some k)).head?

/-- One record of the `mismatches` list: the common key and, for every column
pair, both raw values under labels derived from the column names. -/
structure Mismatch where
  key : String
  fields : List (String × Cell)
deriving DecidableEq

/-- The loop body of src/app.py:253-282 for one common key: take the first
row with that key on each side, compare every column pair in trimmed-text
form, and emit a record with the raw values when at least one pair differs. -/
def compareKey (x y : Frame) (ca cb : List String) (k : String) : Option Mismatch :=
  match firstKeyRow x k, firstKeyRow y k with
  | some ra, some rb =>
    if (ca.zip cb).any
        (fun p => cmpForm (rowCell x.cols ra p.1) != cmpForm (rowCell y.cols rb p.2)) then
      some { key := k,
             fields := ((ca.zip cb).map (fun p =>
               [(p.1 ++ "_A", rowCell x.cols ra p.1),
                (p.2 ++ "_B", rowCell y.cols rb p.2)])).flatten }
    else none
  | _, _ => none

/-- The result dictionary of src/app.py:288-295. -/
structure CompareResult where
  only_in_a : Frame
  only_in_b : Frame
  mismatches : List Mismatch
  total_a : Nat
  total_b : Nat
  common_count : Nat
deriving DecidableEq

/-- No per-key failure: the normal execution of the per-key `try` of
src/app.py:254. -/
def noKeyError : String → Bool := fun _ => false

/-- `compare_dataframes` (src/app.py:201-299).  `setOrder` models the
iteration order of the Python set `common_keys` of line 249 (unspecified by
the runtime; any rearrangement).  `keyError` models, per key, whether the
`try` body of line 254 raises, in which case line 284 reports and skips that
key; normal execution is `noKeyError`.  A `none` result models the
`return None` paths: the four configuration checks of lines 205-221, and the
`except` of line 297 that is reached when renaming a key column to `key`
collides with another column labelled `key` (the `.str` accessor of lines
239-240 is then applied to a two-column frame and raises). -/
def compare_dataframes (setOrder : List String → List String)
    (keyError : String → Bool) (df_a df_b : Frame) (key_a key_b : String)
    (cols_a cols_b : List String) : Option CompareResult :=
  if key_a ∈ df_a.cols then
    if key_b ∈ df_b.cols then
      if ∀ c ∈ cols_a, c ∈ df_a.cols then
        if ∀ c ∈ cols_b, c ∈ df_b.cols then
          if (cleanSide df_a key_a cols_a).cols.count "key" = 1 then
            if (cleanSide df_b key_b cols_b).cols.count "key" = 1 then
              some { only_in_a := ⟨(cleanSide df_a key_a cols_a).cols,
                       onlyRows (cleanSide df_a key_a cols_a) (cleanSide df_b key_b cols_b)⟩,
                     only_in_b := ⟨(cleanSide df_b key_b cols_b).cols,
                       onlyRows (cleanSide df_b key_b cols_b) (cleanSide df_a key_a cols_a)⟩,
                     mismatches :=
                       (setOrder (commonKeys (cleanSide df_a key_a cols_a)
                           (cleanSide df_b key_b cols_b))).filterMap
                         (fun k => if keyError k = true then none
                           else compareKey (cleanSide df_a key_a cols_a)
                             (cleanSide df_b key_b cols_b) cols_a cols_b k),
                     total_a := (cleanSide df_a key_a cols_a).rows.length,
                     total_b := (cleanSide df_b key_b cols_b).rows.length,
                     common_count := (commonKeys (cleanSide df_a key_a cols_a)
                       (cleanSide df_b key_b cols_b)).length }
            else none
          else none
        else none
      else none
    else none
  else none

/-- The claim's "already normalized" precondition on a frame: rectangular, no
blank row, no blank column, and unique column names on which sanitization is
the identity. -/
def IsClean (f : Frame) : Prop :=
  (∀ r ∈ f.rows, r.length = f.cols.length ∧ r.any (fun c => c.isSome) = true) ∧
  (∀ j, j < f.cols.length → f.rows.any (fun r => (r.getD j none).isSome) = true) ∧
  f.cols.Nodup ∧ ∀ c ∈ f.cols, sanitizeName c = c

/- Concrete tables used by the witnesses and counterexamples. -/

def exDfA : Frame :=
  ⟨["Invoice", "Amt"], [[some "INV1", some "100"], [some "INV2", some "200"]]⟩

def exDfB : Frame :=
  ⟨["InvoiceNo", "Amount"], [[some "INV1", some "150"], [some "INV3", some "300"]]⟩

def exDfB5 : Frame :=
  ⟨["InvoiceNo", "Amount", "Extra"], [[some "INV1", some "150", some "e"]]⟩

def exO1 : Frame := ⟨["id", "v"], [[some "k1", some "a"], [some "k2", some "b"]]⟩

def exO2 : Frame := ⟨["id", "v"], [[some "k1", some "x"], [some "k2", some "y"]]⟩

def exKA : Frame := ⟨["id", "key"], [[some "1", some "v1"]]⟩

def exKB : Frame := ⟨["idb", "w"], [[some "1", some "v2"]]⟩

def exDup : Frame := ⟨["x", "x", "x_1"], [[some "a", some "b", some "c"]]⟩

def exU : Frame := ⟨["id"], [[some "7"], [some "invoice"]]⟩

def exCleanW : Frame := ⟨["id", "val"], [[some "1", some "x"]]⟩

/-- A per-key failure oracle for the witnesses: comparing the key `k1`
raises. -/
def exKe : String → Bool := fun k => k == "k1"

/-- The result of reconciling `exDfA` against `exDfB` on the invoice keys with
the amount columns paired. -/
def exRes1 : CompareResult :=
  { only_in_a := ⟨["key", "Amt"], [[some "INV2", some "200"]]⟩,
    only_in_b := ⟨["key", "Amount"], [[some "INV3", some "300"]]⟩,
    mismatches := [⟨"INV1", [("Amt_A", some "100"), ("Amount_B", some "150")]⟩],
    total_a := 2, total_b := 2, common_count := 1 }

/-! ## General list lemmas -/

theorem find?_congr_mem {α : Type} (p q : α → Bool) :
    ∀ l : List α, (∀ x ∈ l, p x = q x) → l.find? p = l.find? q
  | [], _ => rfl
  | x :: xs, h => by
    have hx : p x = q x := h x (List.mem_cons_self x xs)
    cases hqx : q x with
    | true => rw [List.find?_cons_of_pos _ (hx.trans hqx), List.find?_cons_of_pos _ hqx]
    | false =>
      rw [List.find?_cons_of_neg, List.find?_cons_of_neg]
      · exact find?_congr_mem p q xs (fun a ha => h a (List.mem_cons_of_mem _ ha))
      · simp [hqx]
      · simp [hx, hqx]

theorem maxFrom_cons (S : Nat → Nat) (a i : Nat) (l : List Nat) :
    maxFrom S a (i :: l) = maxFrom S (max a (S i)) l := rfl

theorem le_maxFrom (S : Nat → Nat) : ∀ (l : List Nat) (a : Nat), a ≤ maxFrom S a l
  | [], a => Nat.le_refl a
  | i :: l, a =>
    Nat.le_trans (Nat.le_max_left a (S i)) (le_maxFrom S l (max a (S i)))

theorem mem_le_maxFrom (S : Nat → Nat) :
    ∀ (l : List Nat) (a j : Nat), j ∈ l → S j ≤ maxFrom S a l
  | i :: l, a, j, hj => by
    rcases List.mem_cons.mp hj with h | h
    · subst h
      exact Nat.le_trans (Nat.le_max_right a (S j)) (le_maxFrom S l (max a (S j)))
    · exact mem_le_maxFrom S l (max a (S i)) j h

theorem maxFrom_cases (S : Nat → Nat) :
    ∀ (l : List Nat) (a : Nat), maxFrom S a l = a ∨ ∃ i ∈ l, S i = maxFrom S a l
  | [], _ => Or.inl rfl
  | i :: l, a => by
    rw [maxFrom_cons]
    rcases maxFrom_cases S l (max a (S i)) with h | ⟨j, hj, hje⟩
    · rw [h]
      rcases Nat.le_total a (S i) with hle | hle
      · exact Or.inr ⟨i, List.mem_cons_self i l, (Nat.max_eq_right hle).symm⟩
      · exact Or.inl (Nat.max_eq_left hle)
    · exact Or.inr ⟨j, List.mem_cons_of_mem i hj, hje⟩

/-! ## Header detection: the scan computes the first maximum -/

/-- The strict-improvement fold of `detect_header_row` lands on the running
maximum of the scores of the guarded indices, and on the first index
attaining it past the seed. -/
theorem scan_fold_eq (S : Nat → Nat) (K : Nat → Bool) :
    ∀ (l : List Nat) (ms bi : Nat),
      l.foldl (stepFn S K) (ms, bi) =
        (maxFrom S ms (l.filter K),
         match firstHit S (maxFrom S ms (l.filter K)) ms (l.filter K) with
         | some j => j
         | none => bi)
  | [], ms, bi => rfl
  | i :: l, ms, bi => by
    simp only [List.foldl_cons]
    by_cases hK : K i = true
    · rw [List.filter_cons_of_pos hK]
      by_cases hlt : ms < S i
      · rw [show stepFn S K (ms, bi) i = (S i, i) from if_pos ⟨hlt, hK⟩]
        rw [scan_fold_eq S K l (S i) i]
        have hmax : maxFrom S ms (i :: l.filter K) = maxFrom S (S i) (l.filter K) := by
          rw [maxFrom_cons, Nat.max_eq_right (Nat.le_of_lt hlt)]
        rw [hmax]
        by_cases hM : S i = maxFrom S (S i) (l.filter K)
        · have hpred : (fun j => S j == maxFrom S (S i) (l.filter K) && decide (ms < S j)) i
              = true := by simp [← hM, hlt]
          have hrhs : firstHit S (maxFrom S (S i) (l.filter K)) ms (i :: l.filter K)
              = some i := by
            unfold firstHit
            exact List.find?_cons_of_pos _ hpred
          have hlhs : firstHit S (maxFrom S (S i) (l.filter K)) (S i) (l.filter K)
              = none := by
            unfold firstHit
            rw [List.find?_eq_none]
            intro j hj
            have hle : S j ≤ maxFrom S (S i) (l.filter K) := mem_le_maxFrom S _ _ j hj
            have : ¬ S i < S j := by omega
            simp [this]
          rw [hrhs, hlhs]
        · have hle0 : S i ≤ maxFrom S (S i) (l.filter K) := le_maxFrom S _ _
          have hSi_lt : S i < maxFrom S (S i) (l.filter K) := by omega
          have hpred : (fun j => S j == maxFrom S (S i) (l.filter K) && decide (ms < S j)) i
              = false := by simp; omega
          have hrhs : firstHit S (maxFrom S (S i) (l.filter K)) ms (i :: l.filter K)
              = firstHit S (maxFrom S (S i) (l.filter K)) ms (l.filter K) := by
            unfold firstHit
            rw [List.find?_cons_of_neg _ (by simp [hpred])]
          have hcongr : firstHit S (maxFrom S (S i) (l.filter K)) ms (l.filter K)
              = firstHit S (maxFrom S (S i) (l.filter K)) (S i) (l.filter K) := by
            unfold firstHit
            apply find?_congr_mem
            intro j hj
            by_cases hSj : S j = maxFrom S (S i) (l.filter K)
            · have h1 : ms < S j := by omega
              have h2 : S i < S j := by omega
              simp only [hSj]
              rw [decide_eq_true (hSj ▸ h1), decide_eq_true (hSj ▸ h2)]
            · have hb : (S j == maxFrom S (S i) (l.filter K)) = false :=
                beq_eq_false_iff_ne.mpr hSj
              simp [hb]
          have hex : ∃ j ∈ l.filter K,
              (fun j => S j == maxFrom S (S i) (l.filter K) && decide (S i < S j)) j
                = true := by
            rcases maxFrom_cases S (l.filter K) (S i) with h | ⟨j, hj, hje⟩
            · omega
            · exact ⟨j, hj, by simp [hje]; omega⟩
          have hsome : (firstHit S (maxFrom S (S i) (l.filter K)) (S i) (l.filter K)).isSome
              = true := by
            unfold firstHit
            rw [List.find?_isSome]
            rcases hex with ⟨j, hj, hjp⟩
            exact ⟨j, hj, hjp⟩
          rw [hrhs, hcongr]
          rcases Option.isSome_iff_exists.mp hsome with ⟨v, hv⟩
          rw [hv]
      · rw [show stepFn S K (ms, bi) i = (ms, bi) from if_neg (by simp [hlt])]
        rw [scan_fold_eq S K l ms bi]
        have hmax : maxFrom S ms (i :: l.filter K) = maxFrom S ms (l.filter K) := by
          rw [maxFrom_cons, Nat.max_eq_left (by omega)]
        have hpred : (fun j => S j == maxFrom S ms (l.filter K) && decide (ms < S j)) i
            = false := by simp; omega
        have hskip : firstHit S (maxFrom S ms (l.filter K)) ms (i :: l.filter K)
            = firstHit S (maxFrom S ms (l.filter K)) ms (l.filter K) := by
          unfold firstHit
          rw [List.find?_cons_of_neg _ (by simp [hpred])]
        rw [hmax, hskip]
    · rw [List.filter_cons_of_neg hK]
      rw [show stepFn S K (ms, bi) i = (ms, bi) from if_neg (by simp [hK])]
      exact scan_fold_eq S K l ms bi

/-- C3: `detect_header_row` scans only the first `min(15, rowCount)` rows,
scores each row as `2 × keywordMatches + 0.1 × nonEmptyCells` (held here in
exact arithmetic scaled by 10), and returns the index of the first row
attaining the maximum score among rows with at least one keyword match, or 0
when no scanned row has a keyword match — that is, it equals the function
written from the claim's words. -/
theorem detect_header_row_correct (f : Frame) :
    detect_header_row f = detect_header_row_spec f := by
  unfold detect_header_row detect_header_row_spec scanStep
  rw [scan_fold_eq]
  have hcongr :
      firstHit (fun i => rowScore (rowAt f i))
        (maxFrom (fun i => rowScore (rowAt f i)) 0
          ((List.range (min 15 f.rows.length)).filter (rowHasKw f)))
        0 ((List.range (min 15 f.rows.length)).filter (rowHasKw f))
      = ((List.range (min 15 f.rows.length)).filter (rowHasKw f)).find?
        (fun i => rowScore (rowAt f i) ==
          maxFrom (fun i => rowScore (rowAt f i)) 0
            ((List.range (min 15 f.rows.length)).filter (rowHasKw f))) := by
    unfold firstHit
    apply find?_congr_mem
    intro j hj
    have hK : rowHasKw f j = true := (List.mem_filter.mp hj).2
    have hkw : 1 ≤ kwCount (rowAt f j) := of_decide_eq_true hK
    have hpos : 0 < rowScore (rowAt f j) := by
      unfold rowScore
      omega
    simp [hpos]
  rw [hcongr]

/-- C3 witness: the generic characterization applied to the concrete table
`exU`, whose second row is the first (and only) keyword row. -/
theorem detect_header_row_correct_witness :
    detect_header_row exU = detect_header_row_spec exU :=
  detect_header_row_correct exU

/-! ## The reconciliation engine -/

theorem map_id_of_mem {α : Type} (g : α → α) :
    ∀ l : List α, (∀ a ∈ l, g a = a) → l.map g = l
  | [], _ => rfl
  | x :: xs, h => by
    rw [List.map_cons, h x (List.mem_cons_self x xs),
        map_id_of_mem g xs (fun a ha => h a (List.mem_cons_of_mem _ ha))]

/-- Inverting a successful run of `compare_dataframes`: the result is built
from the cleaned sides, and both cleaned sides carry the internal key label
exactly once. -/
theorem compare_dataframes_some_inv {σ : List String → List String}
    {ke : String → Bool} {df_a df_b : Frame} {key_a key_b : String}
    {cols_a cols_b : List String} {res : CompareResult}
    (hres : compare_dataframes σ ke df_a df_b key_a key_b cols_a cols_b = some res) :
    res = { only_in_a := ⟨(cleanSide df_a key_a cols_a).cols,
              onlyRows (cleanSide df_a key_a cols_a) (cleanSide df_b key_b cols_b)⟩,
            only_in_b := ⟨(cleanSide df_b key_b cols_b).cols,
              onlyRows (cleanSide df_b key_b cols_b) (cleanSide df_a key_a cols_a)⟩,
            mismatches :=
              (σ (commonKeys (cleanSide df_a key_a cols_a)
                  (cleanSide df_b key_b cols_b))).filterMap
                (fun k => if ke k = true then none
                  else compareKey (cleanSide df_a key_a cols_a)
                    (cleanSide df_b key_b cols_b) cols_a cols_b k),
            total_a := (cleanSide df_a key_a cols_a).rows.length,
            total_b := (cleanSide df_b key_b cols_b).rows.length,
            common_count := (commonKeys (cleanSide df_a key_a cols_a)
              (cleanSide df_b key_b cols_b)).length } ∧
    (cleanSide df_a key_a cols_a).cols.count "key" = 1 ∧
    (cleanSide df_b key_b cols_b).cols.count "key" = 1 := by
  unfold compare_dataframes at hres
  split_ifs at hres with h1 h2 h3 h4 h5 h6 <;>
    first
    | exact Option.noConfusion hres
    | exact ⟨(Option.some.inj hres).symm, h5, h6⟩

/-- The columns of a cleaned side: the internal name `key` followed by the
renamed comparison columns. -/
theorem cleanSide_cols (f : Frame) (key : String) (cols : List String) :
    (cleanSide f key cols).cols =
      "key" :: cols.map (fun c => if c = key then "key" else c) := by
  unfold cleanSide projectFrame
  simp

/-- When the cleaned side carries `key` exactly once, no comparison column
was renamed: the cleaned columns are `key` followed by the original
comparison columns. -/
theorem cleanSide_cols_of_count {f : Frame} {key : String} {cols : List String}
    (h : (cleanSide f key cols).cols.count "key" = 1) :
    (cleanSide f key cols).cols = "key" :: cols := by
  rw [cleanSide_cols] at h ⊢
  rw [List.count_cons_self] at h
  have hz : (cols.map (fun c => if c = key then "key" else c)).count "key" = 0 := by
    omega
  have hnm : "key" ∉ cols.map (fun c => if c = key then "key" else c) :=
    List.count_eq_zero.mp hz
  congr 1
  apply map_id_of_mem
  intro c hc
  by_cases hck : c = key
  · exact absurd (List.mem_map.mpr ⟨c, hc, by rw [if_pos hck]⟩) hnm
  · exact if_neg hck

/-- A mismatch record emitted for key `k` carries key `k`. -/
theorem compareKey_key {x y : Frame} {ca cb : List String} {k : String}
    {m : Mismatch} (h : compareKey x y ca cb k = some m) : m.key = k := by
  unfold compareKey at h
  split at h
  · split at h
    · cases Option.some.inj h
      rfl
    · exact Option.noConfusion h
  · exact Option.noConfusion h

/-- Membership of a key among the emitted mismatch records of a key list. -/
theorem mismatch_mem_iff (x y : Frame) (ca cb : List String) (ks : List String)
    (k : String) :
    (∃ m ∈ ks.filterMap (compareKey x y ca cb), m.key = k) ↔
      k ∈ ks ∧ (compareKey x y ca cb k).isSome = true := by
  constructor
  · rintro ⟨m, hm, hk⟩
    rcases List.mem_filterMap.mp hm with ⟨a, ha, hfa⟩
    have hak : a = k := by rw [← hk, compareKey_key hfa]
    subst hak
    exact ⟨ha, by rw [hfa]; rfl⟩
  · rintro ⟨hks, hsome⟩
    rcases Option.isSome_iff_exists.mp hsome with ⟨m, hm⟩
    exact ⟨m, List.mem_filterMap.mpr ⟨k, hks, hm⟩, compareKey_key hm⟩

/-- A key is emitted exactly when both sides have a first row for it and some
column pair differs in trimmed-text form. -/
theorem compareKey_isSome_iff (x y : Frame) (ca cb : List String) (k : String) :
    (compareKey x y ca cb k).isSome = true ↔
      ∃ ra rb, firstKeyRow x k = some ra ∧ firstKeyRow y k = some rb ∧
        ∃ p ∈ ca.zip cb,
          cmpForm (rowCell x.cols ra p.1) ≠ cmpForm (rowCell y.cols rb p.2) := by
  unfold compareKey
  cases h1 : firstKeyRow x k with
  | none => simp
  | some ra =>
    cases h2 : firstKeyRow y k with
    | none => simp
    | some rb =>
      simp only [Option.some.injEq]
      constructor
      · intro hs
        refine ⟨ra, rb, rfl, rfl, ?_⟩
        by_cases hc : (ca.zip cb).any
            (fun p => cmpForm (rowCell x.cols ra p.1) !=
              cmpForm (rowCell y.cols rb p.2)) = true
        · rcases List.any_eq_true.mp hc with ⟨p, hp, hne⟩
          exact ⟨p, hp, bne_iff_ne.mp hne⟩
        · rw [if_neg hc] at hs
          exact absurd hs (by simp)
      · rintro ⟨ra2, rb2, hra, hrb, p, hp, hne⟩
        cases hra.symm
        cases hrb.symm
        have hany : ((ca.zip cb).any fun q =>
            cmpForm (rowCell x.cols ra q.1) != cmpForm (rowCell y.cols rb q.2))
            = true :=
          List.any_eq_true.mpr ⟨p, hp, bne_iff_ne.mpr hne⟩
        rw [if_pos hany]
        rfl

/-- In a cleaned side every row's first cell (the key cell) is present. -/
theorem cleanSide_key_some (f : Frame) (key : String) (cols : List String) :
    ∀ r ∈ (cleanSide f key cols).rows, (r.getD 0 none).isSome = true := by
  intro r hr
  unfold cleanSide at hr
  simp only [List.mem_filter] at hr
  rcases hr with ⟨hr2, -⟩
  rcases List.mem_map.mp hr2 with ⟨r0, hr0, hset⟩
  rcases List.mem_map.mp (List.mem_filter.mp hr0).1 with ⟨row, -, hproj⟩
  have hc : colIdx (key :: cols) key = some 0 := by
    unfold colIdx
    simp
  rw [← hset]
  unfold setCol
  show ((match colIdx (projectFrame f (key :: cols)).cols key with
    | some j => r0.set j _ | none => r0).getD 0 none).isSome = true
  have hpc : (projectFrame f (key :: cols)).cols = key :: cols := rfl
  rw [hpc, hc]
  rcases hr0eq : r0 with _ | ⟨c0, rest⟩
  · rw [hr0eq] at hproj
    exact absurd hproj.symm (by simp [projectFrame])
  · simp

/-- The `key` lookup in a cleaned side is the first cell. -/
theorem rowCell_key (f : Frame) (key : String) (cols : List String)
    (r : List Cell) :
    rowCell (cleanSide f key cols).cols r "key" = r.getD 0 none := by
  rw [cleanSide_cols]
  unfold rowCell colIdx
  simp

theorem head?_filter_isSome {α : Type} (p : α → Bool) (l : List α) :
    ((l.filter p).head?).isSome = true ↔ ∃ x ∈ l, p x = true := by
  constructor
  · intro h
    cases hfe : l.filter p with
    | nil => rw [hfe] at h; simp at h
    | cons x xs =>
      have hx : x ∈ l.filter p := by
        rw [hfe]
        exact List.mem_cons_self x xs
      rcases List.mem_filter.mp hx with ⟨hxl, hxp⟩
      exact ⟨x, hxl, hxp⟩
  · rintro ⟨x, hxl, hxp⟩
    cases hfe : l.filter p with
    | nil => exact absurd (List.filter_eq_nil_iff.mp hfe x hxl) (by simp [hxp])
    | cons y ys => simp [hfe]

/-- A key occurs among a cleaned side's keys exactly when that side has a
first row for it. -/
theorem mem_frameKeys_iff (f0 : Frame) (key : String) (cols : List String)
    (k : String) :
    k ∈ frameKeys (cleanSide f0 key cols) ↔
      (firstKeyRow (cleanSide f0 key cols) k).isSome = true := by
  unfold frameKeys keyText firstKeyRow
  rw [head?_filter_isSome]
  constructor
  · intro hk
    rcases List.mem_map.mp hk with ⟨r, hr, hrk⟩
    refine ⟨r, hr, ?_⟩
    rcases Option.isSome_iff_exists.mp (cleanSide_key_some f0 key cols r hr)
      with ⟨s, hs⟩
    rw [rowCell_key] at hrk ⊢
    rw [hs] at hrk ⊢
    simp only [Option.getD_some] at hrk
    simp [hrk]
  · rintro ⟨r, hr, hp⟩
    apply List.mem_map.mpr
    refine ⟨r, hr, ?_⟩
    rw [rowCell_key] at hp ⊢
    rcases Option.isSome_iff_exists.mp (cleanSide_key_some f0 key cols r hr)
      with ⟨s, hs⟩
    rw [hs] at hp ⊢
    simp at hp
    simp [hp]

/-- Membership in the canonical common-key list. -/
theorem mem_commonKeys (x y : Frame) (k : String) :
    k ∈ commonKeys x y ↔ k ∈ frameKeys x ∧ k ∈ frameKeys y := by
  unfold commonKeys
  rw [List.mem_filter, List.mem_dedup, List.elem_iff]

/-- C1 (mismatch soundness): in a successful reconciliation run, a key present
in both cleaned tables appears in `mismatches` exactly when at least one
column pair of the pairing differs under trimmed-text comparison at the first
rows carrying that key.  The `Nodup` hypotheses record what the caller
guarantees (normalized tables have unique columns; the UI multiselect yields
distinct pairing columns). -/
theorem mismatch_soundness (σ : List String → List String)
    (hσ : ∀ l, List.Perm (σ l) l)
    (df_a df_b : Frame) (key_a key_b : String) (cols_a cols_b : List String)
    (hda : df_a.cols.Nodup) (hdb : df_b.cols.Nodup)
    (hca : cols_a.Nodup) (hcb : cols_b.Nodup)
    (res : CompareResult)
    (hres : compare_dataframes σ noKeyError df_a df_b key_a key_b cols_a cols_b
      = some res)
    (k : String)
    (hka : k ∈ frameKeys (cleanSide df_a key_a cols_a))
    (hkb : k ∈ frameKeys (cleanSide df_b key_b cols_b)) :
    (∃ m ∈ res.mismatches, m.key = k) ↔
      ∃ ra rb, firstKeyRow (cleanSide df_a key_a cols_a) k = some ra ∧
        firstKeyRow (cleanSide df_b key_b cols_b) k = some rb ∧
        ∃ p ∈ cols_a.zip cols_b,
          cmpForm (rowCell (cleanSide df_a key_a cols_a).cols ra p.1) ≠
          cmpForm (rowCell (cleanSide df_b key_b cols_b).cols rb p.2) := by
  obtain ⟨hr, -, -⟩ := compare_dataframes_some_inv hres
  have hms : res.mismatches
      = (σ (commonKeys (cleanSide df_a key_a cols_a)
          (cleanSide df_b key_b cols_b))).filterMap
        (compareKey (cleanSide df_a key_a cols_a) (cleanSide df_b key_b cols_b)
          cols_a cols_b) := by
    rw [hr]
    rfl
  rw [hms, mismatch_mem_iff]
  have hcommon : k ∈ commonKeys (cleanSide df_a key_a cols_a)
      (cleanSide df_b key_b cols_b) :=
    (mem_commonKeys _ _ k).mpr ⟨hka, hkb⟩
  have hmem : k ∈ σ (commonKeys (cleanSide df_a key_a cols_a)
      (cleanSide df_b key_b cols_b)) := (hσ _).mem_iff.mpr hcommon
  simp only [hmem, true_and]
  exact compareKey_isSome_iff _ _ cols_a cols_b k

/-- C1 witness: in the concrete run of `exDfA` against `exDfB`, the common key
INV1 appears among the mismatches (its amounts 100 and 150 differ). -/
theorem mismatch_soundness_witness : ∃ m ∈ exRes1.mismatches, m.key = "INV1" :=
  (mismatch_soundness id (fun l => List.Perm.refl l) exDfA exDfB "Invoice"
      "InvoiceNo" ["Amt"] ["Amount"] (by decide) (by decide) (by decide)
      (by decide) exRes1 (by decide) "INV1" (by decide) (by decide)).mpr
    ⟨[some "INV1", some "100"], [some "INV1", some "150"], by decide, by decide,
      ("Amt", "Amount"), by decide, by decide⟩

/-- The rows of one side split into the only-rows and the matched rows:
pointwise exactly one of the two holds, and together they are a permutation
of the side's rows. -/
theorem only_matched_partition (x y : Frame) :
    (∀ r ∈ x.rows,
      (r ∈ onlyRows x y ∧ r ∉ matchedRows x y) ∨
      (r ∉ onlyRows x y ∧ r ∈ matchedRows x y)) ∧
    List.Perm (onlyRows x y ++ matchedRows x y) x.rows := by
  constructor
  · intro r hr
    by_cases hm : (frameKeys y).contains (keyText x r) = true
    · right
      refine ⟨?_, List.mem_filter.mpr ⟨hr, hm⟩⟩
      intro hin
      have hneg := (List.mem_filter.mp hin).2
      rw [hm] at hneg
      exact Bool.noConfusion hneg
    · left
      rw [Bool.not_eq_true] at hm
      refine ⟨List.mem_filter.mpr ⟨hr, by rw [hm]; rfl⟩, ?_⟩
      intro hin
      have h2 := (List.mem_filter.mp hin).2
      rw [hm] at h2
      exact Bool.noConfusion h2
  · exact List.perm_append_comm.trans
      (List.filter_append_perm (fun r => (frameKeys y).contains (keyText x r)) x.rows)

/-- C2 (partition completeness): in every successful reconciliation run, each
row of a cleaned projected side lies in exactly one of the only-rows and the
matched-key rows, and the two lists together are a permutation of that side's
rows — for both sides. -/
theorem partition_completeness (σ : List String → List String)
    (ke : String → Bool) (df_a df_b : Frame) (key_a key_b : String)
    (cols_a cols_b : List String) (res : CompareResult)
    (hres : compare_dataframes σ ke df_a df_b key_a key_b cols_a cols_b
      = some res) :
    (∀ r ∈ (cleanSide df_a key_a cols_a).rows,
      (r ∈ res.only_in_a.rows ∧
        r ∉ matchedRows (cleanSide df_a key_a cols_a) (cleanSide df_b key_b cols_b)) ∨
      (r ∉ res.only_in_a.rows ∧
        r ∈ matchedRows (cleanSide df_a key_a cols_a) (cleanSide df_b key_b cols_b))) ∧
    List.Perm (res.only_in_a.rows ++
        matchedRows (cleanSide df_a key_a cols_a) (cleanSide df_b key_b cols_b))
      (cleanSide df_a key_a cols_a).rows ∧
    (∀ r ∈ (cleanSide df_b key_b cols_b).rows,
      (r ∈ res.only_in_b.rows ∧
        r ∉ matchedRows (cleanSide df_b key_b cols_b) (cleanSide df_a key_a cols_a)) ∨
      (r ∉ res.only_in_b.rows ∧
        r ∈ matchedRows (cleanSide df_b key_b cols_b) (cleanSide df_a key_a cols_a))) ∧
    List.Perm (res.only_in_b.rows ++
        matchedRows (cleanSide df_b key_b cols_b) (cleanSide df_a key_a cols_a))
      (cleanSide df_b key_b cols_b).rows := by
  obtain ⟨hr, -, -⟩ := compare_dataframes_some_inv hres
  subst hr
  exact ⟨(only_matched_partition _ _).1, (only_matched_partition _ _).2,
    (only_matched_partition _ _).1, (only_matched_partition _ _).2⟩

/-- C2 witness: in the concrete run of `exDfA` against `exDfB`, the only-rows
of side A together with its matched rows are a permutation of the cleaned
side. -/
theorem partition_completeness_witness :
    List.Perm (exRes1.only_in_a.rows ++
        matchedRows (cleanSide exDfA "Invoice" ["Amt"])
          (cleanSide exDfB "InvoiceNo" ["Amount"]))
      (cleanSide exDfA "Invoice" ["Amt"]).rows :=
  (partition_completeness id noKeyError exDfA exDfB "Invoice" "InvoiceNo"
      ["Amt"] ["Amount"] exRes1 (by decide)).2.1

/-! ## Configuration errors (C5) -/

/-- C5 amended: `compare_dataframes` reports an error and returns no result
when a key column or a paired column is missing; it performs no emptiness or
length check on the pairing itself (the step-3 UI gate does). -/
theorem config_errors_return_none (σ : List String → List String)
    (ke : String → Bool) (df_a df_b : Frame) (key_a key_b : String)
    (cols_a cols_b : List String)
    (h : key_a ∉ df_a.cols ∨ key_b ∉ df_b.cols ∨ (∃ c ∈ cols_a, c ∉ df_a.cols) ∨
      ∃ c ∈ cols_b, c ∉ df_b.cols) :
    compare_dataframes σ ke df_a df_b key_a key_b cols_a cols_b = none := by
  unfold compare_dataframes
  split_ifs with h1 h2 h3 h4 h5 h6 <;> try rfl
  rcases h with h | h | ⟨c, hc, hcn⟩ | ⟨c, hc, hcn⟩
  · exact absurd h1 h
  · exact absurd h2 h
  · exact absurd (h3 c hc) hcn
  · exact absurd (h4 c hc) hcn

/-- C5 witness: a missing key column makes the concrete run return no
result. -/
theorem config_errors_return_none_witness :
    compare_dataframes id noKeyError exDfA exDfB "Nope" "InvoiceNo" [] [] = none :=
  config_errors_return_none id noKeyError exDfA exDfB "Nope" "InvoiceNo" [] []
    (Or.inl (by decide))

/-- C5 counterexample: with an empty pairing, and with a pairing whose sides
have different lengths, `compare_dataframes` still returns a result, against
the claim that it reports an error and returns none in those cases. -/
theorem config_checks_missing_cex :
    (compare_dataframes id noKeyError exDfA exDfB "Invoice" "InvoiceNo"
      [] []).isSome = true ∧
    (compare_dataframes id noKeyError exDfA exDfB5 "Invoice" "InvoiceNo"
      ["Amt"] ["Amount", "Extra"]).isSome = true ∧
    (["Amt"] : List String).length ≠ (["Amount", "Extra"] : List String).length :=
  ⟨by decide, by decide, by decide⟩

/-! ## Per-key failures (C8) -/

theorem filterMap_guard {α β : Type} (p : α → Bool) (g : α → Option β) :
    ∀ l : List α,
      l.filterMap (fun a => if p a = true then none else g a)
        = (l.filter (fun a => !(p a))).filterMap g
  | [] => rfl
  | a :: l => by
    by_cases hp : p a = true
    · rw [List.filter_cons_of_neg (by rw [hp]; exact fun h => Bool.noConfusion h),
        List.filterMap_cons]
      rw [if_pos hp]
      exact filterMap_guard p g l
    · rw [Bool.not_eq_true] at hp
      rw [List.filter_cons_of_pos (by rw [hp]; rfl), List.filterMap_cons,
        List.filterMap_cons]
      rw [if_neg (by rw [hp]; exact Bool.noConfusion)]
      rw [filterMap_guard p g l]

/-- C8 (per-key partial failure): a run in which the per-key comparison
raises on the keys selected by `ke` equals the failure-free run that simply
omits those keys from the iteration: each failing key is skipped, every other
common key is still processed, and the rest of the result (only-rows, totals,
common count) is untouched. -/
theorem per_key_failure_skips_only_that_key (σ : List String → List String)
    (ke : String → Bool) (df_a df_b : Frame) (key_a key_b : String)
    (cols_a cols_b : List String) :
    compare_dataframes σ ke df_a df_b key_a key_b cols_a cols_b =
      compare_dataframes (fun l => (σ l).filter (fun k => !(ke k))) noKeyError
        df_a df_b key_a key_b cols_a cols_b := by
  unfold compare_dataframes
  split_ifs <;> try rfl
  congr 1
  rw [filterMap_guard]
  congr 1

/-- C8 witness: the generic skip property at a concrete run in which
comparing the key `k1` raises. -/
theorem per_key_failure_witness :
    compare_dataframes id exKe exO1 exO2 "id" "id" ["v"] ["v"] =
      compare_dataframes (fun l => (id l).filter (fun k => !(exKe k))) noKeyError
        exO1 exO2 "id" "id" ["v"] ["v"] :=
  per_key_failure_skips_only_that_key id exKe exO1 exO2 "id" "id" ["v"] ["v"]

/-! ## Output order (C6) -/

/-- C6: the order of the `mismatches` output follows the iteration order of
the Python set of common keys.  Two orders that are both rearrangements of the
same common-key set (the identity and the reversal — Python's hash-randomized
set iteration fixes neither) give the two mismatching keys of this concrete
run in different output orders, so the output order is not a function of the
input alone. -/
theorem mismatch_order_depends_on_iteration :
    (compare_dataframes id noKeyError exO1 exO2 "id" "id" ["v"] ["v"]).map
        (fun r => r.mismatches.map Mismatch.key) = some ["k1", "k2"] ∧
    (compare_dataframes List.reverse noKeyError exO1 exO2 "id" "id" ["v"] ["v"]).map
        (fun r => r.mismatches.map Mismatch.key) = some ["k2", "k1"] ∧
    ∀ l : List String, List.Perm (List.reverse l) l :=
  ⟨by decide, by decide, fun l => List.reverse_perm l⟩

/-! ## The exported key column name (C9) -/

/-- C9 amended: in every successful run the exportable only-rows tables carry
the fixed internal name `key` as their key column, followed by the pairing
columns of their side; the original key column names are not reinstated. -/
theorem only_in_key_column_internal (σ : List String → List String)
    (ke : String → Bool) (df_a df_b : Frame) (key_a key_b : String)
    (cols_a cols_b : List String) (res : CompareResult)
    (hres : compare_dataframes σ ke df_a df_b key_a key_b cols_a cols_b
      = some res) :
    res.only_in_a.cols = "key" :: cols_a ∧ res.only_in_b.cols = "key" :: cols_b := by
  obtain ⟨hr, h5, h6⟩ := compare_dataframes_some_inv hres
  subst hr
  exact ⟨cleanSide_cols_of_count h5, cleanSide_cols_of_count h6⟩

/-- C9 witness: the amended naming at the concrete run. -/
theorem only_in_key_column_internal_witness :
    exRes1.only_in_a.cols = "key" :: ["Amt"] ∧
    exRes1.only_in_b.cols = "key" :: ["Amount"] :=
  only_in_key_column_internal id noKeyError exDfA exDfB "Invoice" "InvoiceNo"
    ["Amt"] ["Amount"] exRes1 (by decide)

/-- C9 counterexample: the exported table of rows only in A carries the key
column name `key`, not the original name `Invoice` (and B's not
`InvoiceNo`). -/
theorem key_name_not_reinstated_cex :
    (compare_dataframes id noKeyError exDfA exDfB "Invoice" "InvoiceNo"
        ["Amt"] ["Amount"]).map (fun r => r.only_in_a.cols)
      = some ["key", "Amt"] ∧
    (compare_dataframes id noKeyError exDfA exDfB "Invoice" "InvoiceNo"
        ["Amt"] ["Amount"]).map (fun r => r.only_in_b.cols)
      = some ["key", "Amount"] ∧
    ("key" : String) ≠ "Invoice" ∧ ("key" : String) ≠ "InvoiceNo" :=
  ⟨by decide, by decide, by decide, by decide⟩

/-! ## A pairing column named `key` (C10) -/

/-- C10: an input satisfying every stated precondition (key columns exist,
pairing columns exist, the pairing is non-empty and of equal lengths) whose
pairing includes a column literally named `key` distinct from the key column
makes `compare_dataframes` fail internally and return no result. -/
theorem pairing_named_key_returns_none :
    ("id" ∈ exKA.cols ∧ "idb" ∈ exKB.cols ∧ (∀ c ∈ ["key"], c ∈ exKA.cols) ∧
      (∀ c ∈ ["w"], c ∈ exKB.cols) ∧ (["key"] : List String) ≠ [] ∧
      (["key"] : List String).length = (["w"] : List String).length ∧
      "key" ≠ "id") ∧
    compare_dataframes id noKeyError exKA exKB "id" "idb" ["key"] ["w"] = none :=
  ⟨by decide, by decide⟩

/-! ## Normalization (C4, C7) -/

/-- C4: on the failing input with raw columns `x`, `x`, `x_1`,
`preprocess_csv` renames the second `x` to `x_1`, which collides with the
existing third column, so the normalized column names are not pairwise
distinct — against the claimed column uniqueness invariant. -/
theorem preprocess_duplicate_names :
    (preprocess_csv exDup).cols = ["x", "x_1", "x_1"] ∧
    ¬ (preprocess_csv exDup).cols.Nodup :=
  ⟨by decide, by decide⟩

theorem getD_range_map {α : Type} : ∀ (l : List α) (d : α),
    (List.range l.length).map (fun j => l.getD j d) = l
  | [], _ => rfl
  | x :: xs, d => by
    rw [List.length_cons, List.range_succ_eq_map, List.map_cons, List.map_map]
    rw [List.getD_cons_zero]
    congr 1
    have hcomp : ((fun j => (x :: xs).getD j d) ∘ (fun j => j + 1))
        = fun j => xs.getD j d := by
      funext j
      simp
    rw [hcomp, getD_range_map xs d]

theorem dropEmptyRows_of_clean {f : Frame}
    (h : ∀ r ∈ f.rows, r.any (fun c => c.isSome) = true) :
    dropEmptyRows f = f := by
  unfold dropEmptyRows
  rw [List.filter_eq_self.mpr h]

theorem dropEmptyCols_of_clean {f : Frame}
    (hall : ∀ j, j < f.cols.length →
      f.rows.any (fun r => (r.getD j none).isSome) = true)
    (hlen : ∀ r ∈ f.rows, r.length = f.cols.length) :
    dropEmptyCols f = f := by
  have hkept : keptCols f = List.range f.cols.length := by
    unfold keptCols
    apply List.filter_eq_self.mpr
    intro j hj
    exact hall j (List.mem_range.mp hj)
  unfold dropEmptyCols
  rw [hkept]
  rcases f with ⟨cols, rows⟩
  simp only [] at hall hlen ⊢
  congr 1
  · exact getD_range_map cols ""
  · apply map_id_of_mem
    intro r hr
    rw [← hlen r hr]
    exact getD_range_map r none

theorem dedupNames_id : ∀ (l : List String) (seen : List (String × Nat)),
    l.Nodup → (∀ c ∈ l, List.lookup c seen = none) → dedupNames l seen = l
  | [], _, _, _ => rfl
  | c :: rest, seen, hnd, hfresh => by
    unfold dedupNames
    rw [hfresh c (List.mem_cons_self c rest)]
    show c :: dedupNames rest ((c, 0) :: seen) = c :: rest
    congr 1
    apply dedupNames_id rest ((c, 0) :: seen) hnd.of_cons
    intro d hd
    have hdc : (d == c) = false := by
      apply beq_eq_false_iff_ne.mpr
      intro he
      subst he
      exact (List.nodup_cons.mp hnd).1 hd
    rw [List.lookup, hdc]
    exact hfresh d (List.mem_cons_of_mem c hd)

/-- C7 amended: normalizing a table that is already normalized (rectangular,
no blank rows or columns, unique sanitization-stable column names) and on
which header detection selects row 0 returns it unchanged.  The counterexample
shows the extra header-detection condition is needed: a keyword occurring in a
later data row re-headers even a clean table. -/
theorem preprocess_idempotent_of_detect_zero (f : Frame) (hclean : IsClean f)
    (hdet : detect_header_row (dropEmptyCols (dropEmptyRows f)) = 0) :
    preprocess_csv f = f := by
  obtain ⟨hrows, hcols, hnodup, hsan⟩ := hclean
  have h1 : dropEmptyRows f = f :=
    dropEmptyRows_of_clean (fun r hr => (hrows r hr).2)
  have h2 : dropEmptyCols f = f :=
    dropEmptyCols_of_clean hcols (fun r hr => (hrows r hr).1)
  rw [h1, h2] at hdet
  unfold preprocess_csv
  simp only [h1, h2, hdet, Nat.lt_irrefl, if_false]
  rw [map_id_of_mem sanitizeName f.cols hsan,
    dedupNames_id f.cols [] hnodup (fun c _ => rfl)]
  show dropEmptyCols ⟨f.cols, f.rows⟩ = f
  rw [show (⟨f.cols, f.rows⟩ : Frame) = f from rfl, h2]

/-- C7 witness: the amended idempotence at a concrete clean two-column table
on which detection keeps row 0. -/
theorem preprocess_idempotent_witness : preprocess_csv exCleanW = exCleanW :=
  preprocess_idempotent_of_detect_zero exCleanW
    ⟨by decide, by decide, by decide, by decide⟩ (by decide)

/-- C7 counterexample: `exU` is already normalized in the claim's sense
(header at row 0, no blank rows or columns, a unique sanitization-stable
column name), yet normalizing it again does not return it unchanged — the
keyword in its second data row is promoted to a header and every row is
discarded. -/
theorem preprocess_not_idempotent_cex :
    IsClean exU ∧ preprocess_csv exU ≠ exU :=
  ⟨⟨by decide, by decide, by decide, by decide⟩, by decide⟩

end FinRecon
